import Mathlib

/-!
Verification of the Endfield Factory Compressor layout engine.

This file is a shallow embedding of the solver core of the repository:

* `shared/models/types.ts`, `shared/models/buildings.ts` — data model and
  building catalog;
* `shared/solver/conveyor-model.ts` — post-hoc conveyor routing
  (`routeConveyorsForSolution`, `bfsPath`, `commitPath`, port helpers);
* `shared/solver/constraints.ts` — the arithmetic rectangle-packing
  constraints (`buildPlacementConstraints`), embedded as a satisfaction
  predicate over candidate anchor assignments;
* `shared/solver/optimizer.ts` — bounds schedule (`estimateInitialBounds`,
  `expandBounds`) and the iterative controller (`solveWithIterativeBounds`);
* `shared/solver/solution-extractor.ts` — solution construction;
* `backend/Z3Solver.cs` — the per-tile direction constraints of the
  cell-based encoding and its conveyor-segment extraction, embedded for a
  single tile.

The external SMT solver is modelled as an oracle: a function from the
iteration counter to a check result, where a `sat` result carries the model
(an assignment of anchor coordinates to node ids).  The Z3 contract
guarantees only that a `sat` model satisfies the asserted constraints, so
theorems that depend on which model is produced take the constraint
satisfaction predicate as a hypothesis, and counterexample runs exhibit an
oracle whose model provably satisfies every asserted constraint.
Wall-clock time (`Date.now`) is abstracted: `elapsedMs` is always 0.
-/

namespace EFC

/-! ## Data model (shared/models/types.ts) -/

/-- Direction strings `up | right | down | left`. -/
inductive Dir where
  | up
  | right
  | down
  | left
deriving DecidableEq, Repr, Fintype

/-- A grid cell, `(x, y)` with integer coordinates. -/
abbrev Cell := Int × Int

/-- `BuildingType` (conveyor-less, as in `shared/models/types.ts`). -/
inductive BuildingType where
  | filler
  | grinder
  | molder
  | refinery
  | crusher
deriving DecidableEq, Repr

/-- `FixedDimensionMode`. -/
inductive FixedDimensionMode where
  | none
  | width
  | height
deriving DecidableEq, Repr

structure BuildingDef where
  type : BuildingType
  name : String
  width : Int
  length : Int
  inputCount : Int
  outputCount : Int
deriving DecidableEq, Repr

structure MachineNode where
  id : String
  label : String
  type : BuildingType
deriving DecidableEq, Repr

/-- `MaterialFlowEdge`; the source fields `from`/`to` are Lean keywords and
are rendered `fromId`/`toId`. -/
structure MaterialFlowEdge where
  id : String
  fromId : String
  toId : String
  item : String
  belts : Int
deriving DecidableEq, Repr

structure ProductionGraph where
  id : String
  targetProduct : String
  targetBelts : Int
  nodes : List MachineNode
  edges : List MaterialFlowEdge
deriving DecidableEq, Repr

structure SolverConfig where
  initialWidth : Option Int
  initialHeight : Option Int
  fixedDimensionMode : FixedDimensionMode
  expansionStep : Int
  maxIterations : Nat
  timeoutMsPerAttempt : Int
deriving DecidableEq, Repr

inductive SolveStatus where
  | sat
  | unsat
  | unknown
deriving DecidableEq, Repr

structure SolverAttempt where
  iteration : Nat
  width : Int
  height : Int
  status : SolveStatus
deriving DecidableEq, Repr

structure PlacedBuilding where
  nodeId : String
  x : Int
  y : Int
  width : Int
  height : Int
deriving DecidableEq, Repr

/-- `ConveyorSegment`.  The TS router always sets `isBridge` and `edgeId`,
so the optional fields are embedded as total ones. -/
structure ConveyorSegment where
  x : Int
  y : Int
  inDirection : Dir
  outDirection : Dir
  isBridge : Bool
  edgeId : String
deriving DecidableEq, Repr

structure Bounds where
  width : Int
  height : Int
deriving DecidableEq, Repr

structure LayoutSolution where
  status : SolveStatus
  bounds : Bounds
  placements : List PlacedBuilding
  conveyors : List ConveyorSegment
  attempts : List SolverAttempt
  elapsedMs : Int
deriving DecidableEq, Repr

/-! ## Building catalog (shared/models/buildings.ts) -/

/-- The `BUILDINGS` record. -/
def BUILDINGS : BuildingType → BuildingDef
  | .filler => ⟨.filler, "灌装机", 3, 6, 6, 6⟩
  | .grinder => ⟨.grinder, "研磨机", 3, 6, 6, 6⟩
  | .molder => ⟨.molder, "塑形机", 3, 3, 3, 3⟩
  | .refinery => ⟨.refinery, "精炼炉", 3, 3, 3, 3⟩
  | .crusher => ⟨.crusher, "粉碎机", 3, 3, 3, 3⟩

def footprintArea (t : BuildingType) : Int :=
  (BUILDINGS t).width * (BUILDINGS t).length

/-! ## Conveyor routing (shared/solver/conveyor-model.ts) -/

/-- Axis usage of a routed cell (`'h' | 'v' | 'hv'` in the source). -/
inductive Axis where
  | h
  | v
  | hv
deriving DecidableEq, Repr

/-- The occupancy map `Map<string, 'h'|'v'|'hv'>`.  A JS `Map` updated by
`set` and read by `get` is embedded as an association list where `set`
conses a binding (shadowing any older one) and `get` is `List.lookup`. -/
abbrev Occ := List (Cell × Axis)

/-- The `STEP` record: direction deltas, in source (insertion) order
up, right, down, left. -/
def STEP : Dir → Cell
  | .up => (0, -1)
  | .right => (1, 0)
  | .down => (0, 1)
  | .left => (-1, 0)

/-- Cell one step from `c` in direction `d`. -/
def stepCell (c : Cell) (d : Dir) : Cell :=
  (c.1 + (STEP d).1, c.2 + (STEP d).2)

/-- `direction(from, to)` of the source. -/
def direction (f t : Cell) : Dir :=
  if t.1 > f.1 then .right
  else if t.1 < f.1 then .left
  else if t.2 > f.2 then .down
  else .up

/-- `isHorizontal(a, b)`. -/
def isHorizontalCells (a b : Cell) : Bool := a.2 == b.2

/-- `buildBlockedCells`: every footprint cell of every placement. -/
def buildBlockedCells (placements : List PlacedBuilding) : List Cell :=
  placements.flatMap fun p =>
    (List.range p.width.toNat).flatMap fun dx =>
      (List.range p.height.toNat).map fun dy =>
        ((p.x + Int.ofNat dx, p.y + Int.ofNat dy) : Cell)

/-- `getOutputPorts`: the row just below the footprint. -/
def getOutputPorts (p : PlacedBuilding) : List Cell :=
  (List.range p.width.toNat).map fun dx =>
    ((p.x + Int.ofNat dx, p.y + p.height) : Cell)

/-- `getInputPorts`: the row just above the footprint. -/
def getInputPorts (p : PlacedBuilding) : List Cell :=
  (List.range p.width.toNat).map fun dx =>
    ((p.x + Int.ofNat dx, p.y - 1) : Cell)

/-- `inBounds(x, y, bounds)`. -/
def inBounds (c : Cell) (b : Bounds) : Bool :=
  decide (0 ≤ c.1) && decide (0 ≤ c.2) && decide (c.1 < b.width) && decide (c.2 < b.height)

/-- Reconstruction of the BFS path from the `prev` map: the source walks
`prev` from the found target back to the start.  `fuel` bounds the walk; the
caller passes `prev.length`, which suffices because `prev` binds each key
once and each binding points to an earlier-inserted key, so the walk visits
pairwise-distinct keys. -/
def walkPrev (prev : List (Cell × Cell)) : Nat → Cell → List Cell
  | 0, c => [c]
  | fuel + 1, c =>
    match prev.lookup c with
    | none => [c]
    | some p => c :: walkPrev prev fuel p

/-- One neighbor probe of the BFS inner `for` loop: enqueue `stepCell current d`
when it is in bounds, not blocked, unvisited and not occupied on both axes. -/
def tryEnqueue (bounds : Bounds) (blocked : List Cell) (occupied : Occ) (current : Cell)
    (st : List Cell × List Cell × List (Cell × Cell)) (d : Dir) :
    List Cell × List Cell × List (Cell × Cell) :=
  let n := stepCell current d
  if inBounds n bounds && !(blocked.contains n) && !(st.2.1.contains n)
      && !(occupied.lookup n == some Axis.hv) then
    (st.1 ++ [n], n :: st.2.1, (n, current) :: st.2.2)
  else st

/-- The BFS `while` loop of `bfsPath`, with explicit state
`(queue, visited, prev)` and a fuel bound on the number of dequeues. -/
def bfsLoop (start : Cell) (targets : List Cell) (bounds : Bounds)
    (blocked : List Cell) (occupied : Occ) :
    Nat → List Cell → List Cell → List (Cell × Cell) → Option (List Cell)
  | 0, _, _, _ => none
  | _ + 1, [], _, _ => none
  | fuel + 1, current :: rest, visited, prev =>
    if current ∈ targets ∧ current ≠ start then
      some ((walkPrev prev prev.length current).reverse)
    else
      let st := [Dir.up, Dir.right, Dir.down, Dir.left].foldl
        (tryEnqueue bounds blocked occupied current) (rest, visited, prev)
      bfsLoop start targets bounds blocked occupied fuel st.1 st.2.1 st.2.2

/-- `bfsPath`.  The source loop terminates because every enqueued cell is a
fresh in-bounds cell; `width·height + 2` dequeue steps therefore always
suffice, and the fuelled loop computes exactly what the source loop does. -/
def bfsPath (start : Cell) (targets : List Cell) (bounds : Bounds)
    (blocked : List Cell) (occupied : Occ) : Option (List Cell) :=
  bfsLoop start targets bounds blocked occupied
    (bounds.width.toNat * bounds.height.toNat + 2) [start] [start] []

/-- `commitPath`, restructured from an index loop (`index` from `0` to
`path.length - 2`) into recursion carrying the previous cell; `prevC = none`
marks `index = 0`. -/
def commitSegs (eid : String) :
    Option Cell → List Cell → List ConveyorSegment → Occ →
    List ConveyorSegment × Occ
  | _, [], convs, occ => (convs, occ)
  | _, [_], convs, occ => (convs, occ)
  | prevC, curr :: next :: rest, convs, occ =>
    let ax : Axis := if isHorizontalCells curr next then .h else .v
    let existing := occ.lookup curr
    let occ2 : Occ :=
      match existing with
      | none => (curr, ax) :: occ
      | some e => if e = ax then occ else (curr, Axis.hv) :: occ
    let seg : ConveyorSegment :=
      { x := curr.1
        y := curr.2
        inDirection := match prevC with
          | none => direction curr next
          | some p => direction p curr
        outDirection := direction curr next
        isBridge := match existing with
          | none => false
          | some e => decide (e ≠ ax)
        edgeId := eid }
    commitSegs eid (some curr) (next :: rest) (convs ++ [seg]) occ2

/-- The segment `commitPath` pushes for cell `curr` followed by `next`,
given the previous cell (`none` at index 0) and the occupancy before the
step. -/
def commitSegOf (eid : String) (prevC : Option Cell) (curr next : Cell)
    (occ : Occ) : ConveyorSegment :=
  ConveyorSegment.mk curr.1 curr.2
    (match prevC with
      | none => direction curr next
      | some p => direction p curr)
    (direction curr next)
    (match occ.lookup curr with
      | none => false
      | some e =>
        decide (e ≠ (if isHorizontalCells curr next then Axis.h else Axis.v)))
    eid

def commitOccOf (curr next : Cell) (occ : Occ) : Occ :=
  match occ.lookup curr with
  | none => (curr, (if isHorizontalCells curr next then Axis.h else Axis.v)) :: occ
  | some e =>
    if e = (if isHorizontalCells curr next then Axis.h else Axis.v) then occ
    else (curr, Axis.hv) :: occ

structure RouteResult where
  ok : Bool
  conveyors : List ConveyorSegment
deriving DecidableEq, Repr

/-- `new Map(placements.map(p => [p.nodeId, p]))` followed by `get`:
with duplicate ids the last entry wins. -/
def placementById (placements : List PlacedBuilding) (id : String) :
    Option PlacedBuilding :=
  placements.reverse.find? fun p => p.nodeId == id

/-- The `for (const start of outputs)` loop choosing the first eligible
start whose BFS path has length at least 3. -/
def findChosenPath (targets : List Cell) (bounds : Bounds) (blocked : List Cell)
    (occupied : Occ) : List Cell → Option (List Cell)
  | [] => none
  | start :: restStarts =>
    if !(inBounds start bounds) || blocked.contains start then
      findChosenPath targets bounds blocked occupied restStarts
    else
      match bfsPath start targets bounds blocked occupied with
      | some path =>
        if 3 ≤ path.length then some path
        else findChosenPath targets bounds blocked occupied restStarts
      | none => findChosenPath targets bounds blocked occupied restStarts

/-- The per-edge loop body of `routeConveyorsForSolution`. -/
def routeEdges (bounds : Bounds) (blocked : List Cell)
    (placements : List PlacedBuilding) :
    List MaterialFlowEdge → Occ → List ConveyorSegment → RouteResult
  | [], _, convs => ⟨true, convs⟩
  | e :: rest, occ, convs =>
    match placementById placements e.fromId, placementById placements e.toId with
    | some fp, some tp =>
      let outputs := getOutputPorts fp
      let inputKeys := getInputPorts tp
      match findChosenPath inputKeys bounds blocked occ outputs with
      | some path =>
        let committed := commitSegs e.id none path convs occ
        routeEdges bounds blocked placements rest committed.2 committed.1
      | none => ⟨false, []⟩
    | _, _ => ⟨false, []⟩

/-- `routeConveyorsForSolution`. -/
def routeConveyorsForSolution (graph : ProductionGraph)
    (solution : LayoutSolution) : RouteResult :=
  routeEdges solution.bounds (buildBlockedCells solution.placements)
    solution.placements graph.edges [] []

/-! ## Solution construction (shared/solver/solution-extractor.ts) -/

/-- A satisfying model of the arithmetic encoding: the integer anchor
`(x, y)` read off for each node id.  This abstracts Z3's
`model.get(vars.x)` value decoding. -/
abbrev Model := String → Cell

def createUnsatSolution (attempts : List SolverAttempt) (elapsedMs : Int)
    (lastBounds : Bounds) : LayoutSolution :=
  { status := .unsat, bounds := lastBounds, placements := [], conveyors := []
    attempts := attempts, elapsedMs := elapsedMs }

def createUnknownSolution (attempts : List SolverAttempt) (elapsedMs : Int)
    (lastBounds : Bounds) : LayoutSolution :=
  { status := .unknown, bounds := lastBounds, placements := [], conveyors := []
    attempts := attempts, elapsedMs := elapsedMs }

def extractSatSolution (graph : ProductionGraph) (model : Model)
    (attempts : List SolverAttempt) (elapsedMs : Int) (bounds : Bounds) :
    LayoutSolution :=
  let placements := graph.nodes.map fun node =>
    let d := BUILDINGS node.type
    ({ nodeId := node.id, x := (model node.id).1, y := (model node.id).2
       width := d.length, height := d.width } : PlacedBuilding)
  { status := .sat, bounds := bounds, placements := placements, conveyors := []
    attempts := attempts, elapsedMs := elapsedMs }

/-! ## Arithmetic placement constraints (shared/solver/constraints.ts)

`buildPlacementConstraints` asserts, into the Z3 solver:
for each node, `x ≥ 0`, `y ≥ 0`, `x + length ≤ width`, `y + width ≤ height`;
for a non-empty node list, that the first node's anchor is `(0, 0)`;
and for each index pair `left < right` a four-way disjunction of separating
inequalities.  The assertions are embedded as a satisfaction predicate over
a candidate model. -/

def nodeBoundsOk (bounds : Bounds) (m : Model) (node : MachineNode) : Bool :=
  let a := m node.id
  let d := BUILDINGS node.type
  decide (0 ≤ a.1) && decide (0 ≤ a.2) &&
    decide (a.1 + d.length ≤ bounds.width) &&
    decide (a.2 + d.width ≤ bounds.height)

/-- The anchor constraint: `nodes[0]` is pinned at `(0, 0)`. -/
def anchorOk (graph : ProductionGraph) (m : Model) : Bool :=
  match graph.nodes with
  | [] => true
  | node :: _ => m node.id == ((0 : Int), (0 : Int))

/-- The separation disjunction for one pair of nodes. -/
def pairOk (m : Model) (a b : MachineNode) : Bool :=
  let pa := m a.id
  let pb := m b.id
  let da := BUILDINGS a.type
  let db := BUILDINGS b.type
  decide (pa.1 + da.length ≤ pb.1) || decide (pb.1 + db.length ≤ pa.1) ||
    decide (pa.2 + da.width ≤ pb.2) || decide (pb.2 + db.width ≤ pa.2)

/-- The nested `left < right` index loops. -/
def allPairsOk (m : Model) : List MachineNode → Bool
  | [] => true
  | node :: rest => rest.all (pairOk m node) && allPairsOk m rest

/-- All packing constraints except the anchor (in-bounds plus pairwise
separation): what §4.4's fallback encoding calls a packing. -/
def satisfiesPackingConstraints (graph : ProductionGraph) (bounds : Bounds)
    (m : Model) : Bool :=
  graph.nodes.all (nodeBoundsOk bounds m) && allPairsOk m graph.nodes

/-- The complete constraint set asserted by `buildPlacementConstraints`. -/
def satisfiesPlacementConstraints (graph : ProductionGraph) (bounds : Bounds)
    (m : Model) : Bool :=
  graph.nodes.all (nodeBoundsOk bounds m) && anchorOk graph m &&
    allPairsOk m graph.nodes

/-! ## Bounds schedule and iterative controller (shared/solver/optimizer.ts) -/

/-- Search for the smallest `k` with `n ≤ k * k`, starting at `k`;
`fuel = n` always suffices since `⌈√n⌉ ≤ n`. -/
def ceilSqrtAux (n : Nat) : Nat → Nat → Nat
  | 0, k => k
  | fuel + 1, k => if n ≤ k * k then k else ceilSqrtAux n fuel (k + 1)

/-- Exact ceiling square root (the smallest `k` with `n ≤ k²`); on the
magnitudes involved this equals the source's
`Math.ceil(Math.sqrt(totalArea))`. -/
def ceilSqrtNat (n : Nat) : Nat := ceilSqrtAux n n 0

/-- The `reduce` of `estimateInitialBounds`: `Σ width·length` over nodes. -/
def totalFootprintArea (graph : ProductionGraph) : Int :=
  graph.nodes.foldl
    (fun sum node => sum + (BUILDINGS node.type).width * (BUILDINGS node.type).length) 0

/-- `estimateInitialBounds`: the side is `⌈√(Σ width·length)⌉` over all
nodes — no max with the machine dimensions is taken. -/
def estimateInitialBounds (graph : ProductionGraph) : Bounds :=
  let side : Int := Int.ofNat (ceilSqrtNat (totalFootprintArea graph).toNat)
  ⟨side, side⟩

/-- `resolveInitialBounds`: `??` (nullish coalescing) per axis. -/
def resolveInitialBounds (graph : ProductionGraph) (config : SolverConfig) :
    Bounds :=
  let estimated := estimateInitialBounds graph
  ⟨config.initialWidth.getD estimated.width,
    config.initialHeight.getD estimated.height⟩

/-- `expandBounds`: grows one axis by `max(1, expansionStep)`. -/
def expandBounds (current : Bounds) (config : SolverConfig) (iteration : Nat) :
    Bounds :=
  let step := max 1 config.expansionStep
  match config.fixedDimensionMode with
  | .width => ⟨current.width, current.height + step⟩
  | .height => ⟨current.width + step, current.height⟩
  | .none =>
    if iteration % 2 == 0 then ⟨current.width + step, current.height⟩
    else ⟨current.width, current.height + step⟩

/-- Result of one `solver.check()`: the external Z3 oracle.  A `sat` result
carries the model read back from the solver. -/
inductive CheckResult where
  | sat (model : Model)
  | unsat
  | unknown

/-- The oracle for a whole run: the check result of each 1-indexed
iteration. -/
abbrev Oracle := Nat → CheckResult

/-- The `for` loop of `solveWithIterativeBounds`: `k` is the 1-indexed
iteration counter, `fuel` the number of iterations left
(`maxIterations - k + 1` at the top-level call). -/
def solveIter (graph : ProductionGraph) (config : SolverConfig)
    (oracle : Oracle) (cancel : Nat → Bool) :
    Nat → Nat → Bounds → List SolverAttempt → LayoutSolution
  | _, 0, bounds, attempts => createUnsatSolution attempts 0 bounds
  | k, fuel + 1, bounds, attempts =>
    if cancel k then createUnknownSolution attempts 0 bounds
    else
      match oracle k with
      | .sat model =>
        let base := extractSatSolution graph model attempts 0 bounds
        let routed := routeConveyorsForSolution graph base
        if routed.ok then
          { base with conveyors := routed.conveyors, attempts := attempts }
        else
          solveIter graph config oracle cancel (k + 1) fuel
            (expandBounds bounds config k)
            (attempts ++ [⟨k, bounds.width, bounds.height, .unsat⟩])
      | .unknown =>
        createUnknownSolution
          (attempts ++ [⟨k, bounds.width, bounds.height, .unknown⟩]) 0 bounds
      | .unsat =>
        solveIter graph config oracle cancel (k + 1) fuel
          (expandBounds bounds config k)
          (attempts ++ [⟨k, bounds.width, bounds.height, .unsat⟩])

/-- `solveWithIterativeBounds`.  Note the `sat` branch snapshots `attempts`
before pushing the `sat` attempt, exactly as the source spreads
`[...attempts]` before `attempts.push(satAttempt)`. -/
def solveWithIterativeBounds (graph : ProductionGraph) (config : SolverConfig)
    (oracle : Oracle) (cancel : Nat → Bool) : LayoutSolution :=
  solveIter graph config oracle cancel 1 config.maxIterations
    (resolveInitialBounds graph config) []

/-! ## Cell-based encoding, per-tile direction constraints (backend/Z3Solver.cs)

One tile's Boolean variables (`TileVars`, minus the per-node machine-identity
booleans, which the direction constraints do not mention) and the constraints
of `TrySolve` that involve only that tile: type exclusivity, direction
gating for empty/machine/conveyor tiles, and the bridge flow constraints.
`csExtractIn`/`csExtractOut` mirror the model extraction that scans
`InDirection`/`OutDirection` in insertion order up, right, down, left and
takes the first true bit. -/

structure CsTile where
  isEmpty : Bool
  isMachine : Bool
  isConveyor : Bool
  isBridge : Bool
  inUp : Bool
  inRight : Bool
  inDown : Bool
  inLeft : Bool
  outUp : Bool
  outRight : Bool
  outDown : Bool
  outLeft : Bool
deriving DecidableEq, Repr

def csTileConstraintsOk (t : CsTile) : Bool :=
  -- exactly one type: at least one, pairwise exclusion
  (t.isEmpty || t.isMachine || t.isConveyor || t.isBridge) &&
  !(t.isEmpty && t.isMachine) && !(t.isEmpty && t.isConveyor) &&
  !(t.isEmpty && t.isBridge) && !(t.isMachine && t.isConveyor) &&
  !(t.isMachine && t.isBridge) && !(t.isConveyor && t.isBridge) &&
  -- empty and machine tiles have no directions
  (!t.isEmpty || (!t.inUp && !t.inRight && !t.inDown && !t.inLeft)) &&
  (!t.isEmpty || (!t.outUp && !t.outRight && !t.outDown && !t.outLeft)) &&
  (!t.isMachine || (!t.inUp && !t.inRight && !t.inDown && !t.inLeft)) &&
  (!t.isMachine || (!t.outUp && !t.outRight && !t.outDown && !t.outLeft)) &&
  -- conveyor: at least one input and one output
  (!t.isConveyor || (t.inUp || t.inRight || t.inDown || t.inLeft)) &&
  (!t.isConveyor || (t.outUp || t.outRight || t.outDown || t.outLeft)) &&
  -- conveyor: at most one input direction
  (!t.isConveyor || !(t.inUp && t.inRight)) &&
  (!t.isConveyor || !(t.inUp && t.inDown)) &&
  (!t.isConveyor || !(t.inUp && t.inLeft)) &&
  (!t.isConveyor || !(t.inRight && t.inDown)) &&
  (!t.isConveyor || !(t.inRight && t.inLeft)) &&
  (!t.isConveyor || !(t.inDown && t.inLeft)) &&
  -- conveyor: at most one output direction
  (!t.isConveyor || !(t.outUp && t.outRight)) &&
  (!t.isConveyor || !(t.outUp && t.outDown)) &&
  (!t.isConveyor || !(t.outUp && t.outLeft)) &&
  (!t.isConveyor || !(t.outRight && t.outDown)) &&
  (!t.isConveyor || !(t.outRight && t.outLeft)) &&
  (!t.isConveyor || !(t.outDown && t.outLeft)) &&
  -- conveyor: input and output must be different
  (!t.isConveyor || !(t.inUp && t.outUp)) &&
  (!t.isConveyor || !(t.inRight && t.outRight)) &&
  (!t.isConveyor || !(t.inDown && t.outDown)) &&
  (!t.isConveyor || !(t.inLeft && t.outLeft)) &&
  -- bridge: both a vertical and a horizontal flow
  (!t.isBridge || ((t.inUp || t.inDown) && (t.outUp || t.outDown))) &&
  (!t.isBridge || ((t.inLeft || t.inRight) && (t.outLeft || t.outRight))) &&
  -- bridge: in/out of each axis are opposite
  (!(t.isBridge && t.inUp) || t.outDown) &&
  (!(t.isBridge && t.inDown) || t.outUp) &&
  (!(t.isBridge && t.inLeft) || t.outRight) &&
  (!(t.isBridge && t.inRight) || t.outLeft)

/-- First true `InDirection` bit in dictionary insertion order. -/
def csExtractIn (t : CsTile) : Option Dir :=
  if t.inUp then some .up
  else if t.inRight then some .right
  else if t.inDown then some .down
  else if t.inLeft then some .left
  else none

/-- First true `OutDirection` bit in dictionary insertion order. -/
def csExtractOut (t : CsTile) : Option Dir :=
  if t.outUp then some .up
  else if t.outRight then some .right
  else if t.outDown then some .down
  else if t.outLeft then some .left
  else none

/-! ## Notions used to state the claims -/

/-- The cell a segment sits on. -/
def segCell (s : ConveyorSegment) : Cell := (s.x, s.y)

/-- `b` is one grid step away from `a`. -/
def IsStep (a b : Cell) : Prop := ∃ d, b = stepCell a d

/-- Two consecutive cells of a routed chain: the first cell's active `Out`
direction points at the second cell, and matches the second cell's `In`
direction (the router records the travel direction on both sides). -/
def SegStep (a b : ConveyorSegment) : Prop :=
  segCell b = stepCell (segCell a) a.outDirection ∧
    b.inDirection = a.outDirection

instance (a b : ConveyorSegment) : Decidable (SegStep a b) := by
  unfold SegStep; infer_instance

/-- The footprint cells of a placement. -/
def footprintCells (p : PlacedBuilding) : List Cell :=
  (List.range p.width.toNat).flatMap fun dx =>
    (List.range p.height.toNat).map fun dy =>
      ((p.x + Int.ofNat dx, p.y + Int.ofNat dy) : Cell)

/-- Two cells share a grid edge. -/
def EdgeAdjacent (a b : Cell) : Prop :=
  (a.1 - b.1).natAbs + (a.2 - b.2).natAbs = 1

instance (a b : Cell) : Decidable (EdgeAdjacent a b) := by
  unfold EdgeAdjacent; infer_instance

/-- The travel axis of a direction. -/
def axisOfDir (d : Dir) : Axis :=
  match d with
  | .left | .right => .h
  | .up | .down => .v

/-- Claim C1 as stated: for every material edge the returned segments
contain a connected path of at least 3 cells from an output-face cell of
the source placement to an input-face cell of the destination placement,
consecutive cells linked by the `Out` direction of one matching the `In`
direction of the next. -/
def ClaimC1Holds (graph : ProductionGraph) (sol : LayoutSolution) : Prop :=
  ∀ e ∈ graph.edges, ∃ fp tp,
    placementById sol.placements e.fromId = some fp ∧
    placementById sol.placements e.toId = some tp ∧
    ∃ q : List ConveyorSegment,
      (∀ s ∈ q, s ∈ sol.conveyors) ∧
      3 ≤ q.length ∧
      List.Chain' SegStep q ∧
      (∃ s0, q.head? = some s0 ∧ segCell s0 ∈ getOutputPorts fp) ∧
      (∃ sl, q.getLast? = some sl ∧ segCell sl ∈ getInputPorts tp)

/-- Claim C2 as stated: no two footprint cells of distinct machine nodes of
a solution share a grid edge. -/
def ClaimC2Holds (sol : LayoutSolution) : Prop :=
  ∀ p1 ∈ sol.placements, ∀ p2 ∈ sol.placements, p1.nodeId ≠ p2.nodeId →
    ∀ c1 ∈ footprintCells p1, ∀ c2 ∈ footprintCells p2, ¬ EdgeAdjacent c1 c2

instance (sol : LayoutSolution) : Decidable (ClaimC2Holds sol) := by
  unfold ClaimC2Holds; infer_instance

/-- Claim C5 as stated: a cell holding non-bridge conveyor segments carries
exactly one material edge, and a bridge cell carries at most one edge per
travel axis. -/
def ClaimC5Holds (sol : LayoutSolution) : Prop :=
  (∀ s1 ∈ sol.conveyors, ∀ s2 ∈ sol.conveyors,
    s1.isBridge = false → s2.isBridge = false →
    s1.x = s2.x → s1.y = s2.y → s1.edgeId = s2.edgeId) ∧
  (∀ s1 ∈ sol.conveyors, ∀ s2 ∈ sol.conveyors,
    s1.isBridge = true → s2.isBridge = true →
    s1.x = s2.x → s1.y = s2.y →
    axisOfDir s1.outDirection = axisOfDir s2.outDirection →
    s1.edgeId = s2.edgeId)

instance (sol : LayoutSolution) : Decidable (ClaimC5Holds sol) := by
  unfold ClaimC5Holds; infer_instance

/-- Claim C6 as stated: every non-bridge conveyor segment of a solution has
distinct in and out directions. -/
def ClaimC6Holds (sol : LayoutSolution) : Prop :=
  ∀ s ∈ sol.conveyors, s.isBridge = false →
    s.inDirection ≠ s.outDirection

instance (sol : LayoutSolution) : Decidable (ClaimC6Holds sol) := by
  unfold ClaimC6Holds; infer_instance

/-- Modelled from the spec: the initial side claimed by §4.3,
`s = max(L, S, ⌈√A⌉)` with `L` the maximum long side and `S` the maximum
short side over nodes.  This follows the claim's words and is compared
against `estimateInitialBounds`, which the source computes without the
max. -/
def specInitialSide (graph : ProductionGraph) : Int :=
  let maxLong := graph.nodes.foldl (fun acc n => max acc (BUILDINGS n.type).length) 0
  let maxShort := graph.nodes.foldl (fun acc n => max acc (BUILDINGS n.type).width) 0
  max (max maxLong maxShort)
    (Int.ofNat (ceilSqrtNat (totalFootprintArea graph).toNat))

/-! ## Invariants of the BFS loop -/

/-- `x` can be resolved by the reconstruction walk: it is the start cell or
has a parent entry. -/
def Resolv (prev : List (Cell × Cell)) (start x : Cell) : Prop :=
  x = start ∨ (prev.lookup x).isSome

/-- Well-formedness of the BFS `prev` map, newest binding first: each key is
a fresh non-start cell that passed the enqueue guards, one step from its
parent, and each parent is the start cell or an earlier key. -/
inductive GoodPrev (start : Cell) (bounds : Bounds) (blocked : List Cell)
    (occ : Occ) : List (Cell × Cell) → Prop
  | nil : GoodPrev start bounds blocked occ []
  | cons {c p : Cell} {rest : List (Cell × Cell)} :
      GoodPrev start bounds blocked occ rest →
      c ≠ start →
      rest.lookup c = none →
      Resolv rest start p →
      IsStep p c →
      inBounds c bounds = true →
      blocked.contains c = false →
      occ.lookup c ≠ some Axis.hv →
      GoodPrev start bounds blocked occ ((c, p) :: rest)

/-- The BFS loop invariant over the state `(queue, visited, prev)`. -/
def StInv (start : Cell) (bounds : Bounds) (blocked : List Cell) (occ : Occ)
    (st : List Cell × List Cell × List (Cell × Cell)) : Prop :=
  GoodPrev start bounds blocked occ st.2.2 ∧
    start ∈ st.2.1 ∧
    (∀ x, (st.2.2.lookup x).isSome → x ∈ st.2.1) ∧
    (∀ x ∈ st.1, Resolv st.2.2 start x)

/-! ## Attempt history of an all-unsat run -/

/-- The attempts recorded when every check returns unsat, starting at
iteration `k` with `fuel` iterations left. -/
def unsatAttempts (config : SolverConfig) : Nat → Nat → Bounds → List SolverAttempt
  | _, 0, _ => []
  | k, fuel + 1, b =>
    ⟨k, b.width, b.height, .unsat⟩ :: unsatAttempts config (k + 1) fuel (expandBounds b config k)

/-- The bounds held after expanding `fuel` more times from iteration `k`. -/
def finalBounds (config : SolverConfig) : Nat → Nat → Bounds → Bounds
  | _, 0, b => b
  | k, fuel + 1, b => finalBounds config (k + 1) fuel (expandBounds b config k)

/-- An edge endpoint that references no present node. -/
def hasDanglingEdge (graph : ProductionGraph) : Bool :=
  graph.edges.any fun e =>
    !(graph.nodes.any fun n => n.id == e.fromId) ||
      !(graph.nodes.any fun n => n.id == e.toId)

/-! ## Concrete instances used by counterexamples and witnesses

Each run instantiates the solver oracle with a model that provably
satisfies every constraint asserted by `buildPlacementConstraints` at the
probed rectangle, i.e. a model Z3 is allowed to return. -/

def crusherNode (i l : String) : MachineNode := ⟨i, l, .crusher⟩

/-- Two crushers, one material edge `a → b`. -/
def graphAB : ProductionGraph :=
  ⟨"g-ab", "x", 1, [crusherNode "a" "A", crusherNode "b" "B"],
    [⟨"e1", "a", "b", "x", 1⟩]⟩

/-- `a` at the origin, `b` directly below with a 3-row gap. -/
def modelAB : Model := fun id =>
  if id = "b" then ((0 : Int), (6 : Int)) else ((0 : Int), (0 : Int))

/-- 3×9 rectangle from the first iteration on. -/
def cfgTall : SolverConfig := ⟨some 3, some 9, .none, 1, 50, 30000⟩

def runAB : LayoutSolution :=
  solveWithIterativeBounds graphAB cfgTall (fun _ => .sat modelAB) (fun _ => false)

/-- Two crushers, two parallel material edges `a → b`. -/
def graphAB2 : ProductionGraph :=
  ⟨"g-ab2", "x", 1, [crusherNode "a" "A", crusherNode "b" "B"],
    [⟨"e1", "a", "b", "x", 1⟩, ⟨"e2", "a", "b", "x", 1⟩]⟩

def runAB2 : LayoutSolution :=
  solveWithIterativeBounds graphAB2 cfgTall (fun _ => .sat modelAB) (fun _ => false)

/-- Two crushers, no edges. -/
def graphSide : ProductionGraph :=
  ⟨"g-side", "x", 1, [crusherNode "a" "A", crusherNode "b" "B"], []⟩

/-- `a` at the origin, `b` touching its right edge. -/
def modelSide : Model := fun id =>
  if id = "b" then ((3 : Int), (0 : Int)) else ((0 : Int), (0 : Int))

def cfgSide : SolverConfig := ⟨some 6, some 3, .none, 1, 50, 30000⟩

def runSide : LayoutSolution :=
  solveWithIterativeBounds graphSide cfgSide (fun _ => .sat modelSide) (fun _ => false)

/-- A single grinder (footprint 3×6), no edges. -/
def graphGrinder : ProductionGraph := ⟨"g-grinder", "x", 1, [⟨"g", "G", .grinder⟩], []⟩

/-- No caller-supplied initial dimensions, one iteration. -/
def cfgAuto : SolverConfig := ⟨none, none, .none, 1, 1, 30000⟩

def runGrinder : LayoutSolution :=
  solveWithIterativeBounds graphGrinder cfgAuto (fun _ => .unsat) (fun _ => false)

/-- A single crusher, no edges. -/
def graphSingle : ProductionGraph := ⟨"g-single", "x", 1, [crusherNode "a" "A"], []⟩

/-- Fixed width, starting at 3×3, one iteration. -/
def cfgFixedW : SolverConfig := ⟨some 3, some 3, .width, 1, 1, 30000⟩

def runFixedW : LayoutSolution :=
  solveWithIterativeBounds graphSingle cfgFixedW (fun _ => .unsat) (fun _ => false)

/-- One crusher and an edge to the absent node `ghost`. -/
def graphDangling : ProductionGraph :=
  ⟨"g-dangling", "x", 1, [crusherNode "a" "A"], [⟨"e1", "a", "ghost", "x", 1⟩]⟩

def modelOrigin : Model := fun _ => ((0 : Int), (0 : Int))

/-- Fixed width, non-positive expansion step, one iteration. -/
def cfgDangling : SolverConfig := ⟨some 3, some 3, .width, 0, 1, 30000⟩

def runDangling : LayoutSolution :=
  solveWithIterativeBounds graphDangling cfgDangling (fun _ => .sat modelOrigin) (fun _ => false)

/-- A conveyor tile of the cell-based encoding: flow in from above, out
below. -/
def csTileDown : CsTile :=
  ⟨false, false, true, false, true, false, false, false, false, false, true, false⟩

/-! # Theorems -/

/-! ## Soundness of the BFS router

The following lemmas establish, by a loop invariant on the BFS state, that
any path the router reconstructs starts at the given start cell, ends at a
target, proceeds in unit grid steps, and never enters a blocked or
doubly-occupied cell; and that `commitPath` turns such a path into a
connected segment chain. -/

theorem direction_stepCell (a : Cell) (d : Dir) : direction a (stepCell a d) = d := by
  cases d <;> simp [direction, stepCell, STEP]

theorem stepCell_direction {a b : Cell} (h : IsStep a b) :
    stepCell a (direction a b) = b := by
  obtain ⟨d, rfl⟩ := h
  rw [direction_stepCell]

theorem lookup_isSome_cons {e : Cell × Cell} {l : List (Cell × Cell)} {x : Cell}
    (h : (l.lookup x).isSome) : (((e :: l).lookup x).isSome) := by
  by_cases hx : x == e.1
  · simp [List.lookup, hx]
  · simp [List.lookup, hx, h]

theorem resolv_cons {e : Cell × Cell} {prev : List (Cell × Cell)} {start x : Cell}
    (h : Resolv prev start x) : Resolv (e :: prev) start x := by
  rcases h with h | h
  · exact Or.inl h
  · exact Or.inr (lookup_isSome_cons h)

theorem goodPrev_parent {start : Cell} {bounds : Bounds} {blocked : List Cell}
    {occ : Occ} {prev : List (Cell × Cell)}
    (hg : GoodPrev start bounds blocked occ prev) :
    ∀ {c p : Cell}, prev.lookup c = some p → Resolv prev start p := by
  induction hg with
  | nil => intro c p h; simp [List.lookup] at h
  | cons hrest hcs hfresh hpar hstep hib hbl hocc ih =>
    intro c p h
    rename_i c0 p0 rest
    by_cases hc : c == c0
    · simp only [List.lookup, hc] at h
      injection h with h
      subst h
      exact resolv_cons hpar
    · simp only [List.lookup, hc] at h
      exact resolv_cons (ih h)

theorem walk_extend {start : Cell} {bounds : Bounds} {blocked : List Cell}
    {occ : Occ} {c0 p0 : Cell} {rest : List (Cell × Cell)}
    (hg : GoodPrev start bounds blocked occ ((c0, p0) :: rest)) :
    ∀ (fuel : Nat) (x : Cell), Resolv rest start x →
      walkPrev ((c0, p0) :: rest) fuel x = walkPrev rest fuel x := by
  cases hg with
  | cons hrest hcs hfresh hpar hstep hib hbl hocc =>
    intro fuel
    induction fuel with
    | zero => intro x hx; rfl
    | succ n ih =>
      intro x hx
      have hxc0 : (x == c0) = false := by
        rw [beq_eq_false_iff_ne]
        intro hx0
        subst hx0
        rcases hx with h | h
        · exact hcs h
        · rw [hfresh] at h; simp at h
      simp only [walkPrev, List.lookup, hxc0]
      cases hl : rest.lookup x with
      | none => rfl
      | some p =>
        show x :: walkPrev ((c0, p0) :: rest) n p = x :: walkPrev rest n p
        rw [ih p (goodPrev_parent hrest hl)]

theorem getLast?_cons_ne {α : Type} {a : α} {l : List α} (h : l ≠ []) :
    (a :: l).getLast? = l.getLast? := by
  cases l with
  | nil => exact absurd rfl h
  | cons b t => exact List.getLast?_cons_cons

theorem walk_sound {start : Cell} {bounds : Bounds} {blocked : List Cell} {occ : Occ}
    {prev : List (Cell × Cell)}
    (hg : GoodPrev start bounds blocked occ prev) :
    ∀ (fuel : Nat), prev.length ≤ fuel → ∀ (c : Cell), Resolv prev start c →
      (walkPrev prev fuel c) ≠ [] ∧
      (walkPrev prev fuel c).head? = some c ∧
      (walkPrev prev fuel c).getLast? = some start ∧
      List.Chain' (fun a b => IsStep b a) (walkPrev prev fuel c) ∧
      (∀ x ∈ walkPrev prev fuel c, x = start ∨
        (inBounds x bounds = true ∧ blocked.contains x = false ∧
          occ.lookup x ≠ some Axis.hv)) := by
  induction hg with
  | nil =>
    intro fuel hf c hc
    have hcs : c = start := by
      rcases hc with h | h
      · exact h
      · simp [List.lookup] at h
    subst hcs
    cases fuel <;> simp [walkPrev, List.lookup]
  | cons hrest hcs hfresh hpar hstep hib hbl hocc ih =>
    rename_i c0 p0 rest
    intro fuel hf c hc
    obtain ⟨n, rfl⟩ : ∃ n, fuel = n + 1 := ⟨fuel - 1, by simp at hf; omega⟩
    have hn : rest.length ≤ n := by simp at hf; omega
    have hgfull : GoodPrev start bounds blocked occ ((c0, p0) :: rest) :=
      GoodPrev.cons hrest hcs hfresh hpar hstep hib hbl hocc
    by_cases hcc : c = c0
    · subst hcc
      have hlook : ((c, p0) :: rest).lookup c = some p0 := by simp [List.lookup]
      have hwalk : walkPrev ((c, p0) :: rest) (n + 1) c = c :: walkPrev rest n p0 := by
        simp only [walkPrev, hlook]
        rw [walk_extend hgfull n p0 hpar]
      obtain ⟨hne, hhead, hlast, hchain, hmem⟩ := ih n hn p0 hpar
      rw [hwalk]
      refine ⟨by simp, by simp, ?_, ?_, ?_⟩
      · rw [getLast?_cons_ne hne]
        exact hlast
      · rw [List.chain'_cons']
        refine ⟨?_, hchain⟩
        intro y hy
        rw [hhead] at hy
        simp only [Option.mem_some_iff] at hy
        subst hy
        exact hstep
      · intro x hx
        rcases List.mem_cons.mp hx with rfl | hx
        · right; exact ⟨hib, hbl, hocc⟩
        · exact hmem x hx
    · have hresolv : Resolv rest start c := by
        rcases hc with h | h
        · exact Or.inl h
        · right
          simpa [List.lookup, beq_eq_false_iff_ne.mpr hcc] using h
      rw [walk_extend hgfull (n + 1) c hresolv]
      exact ih (n + 1) (by omega) c hresolv

theorem contains_false_not_mem {l : List Cell} {x : Cell}
    (h : l.contains x = false) : x ∉ l := by
  simpa using h

theorem tryEnqueue_inv {start : Cell} {bounds : Bounds} {blocked : List Cell}
    {occ : Occ} {current : Cell}
    {st : List Cell × List Cell × List (Cell × Cell)} (d : Dir)
    (hinv : StInv start bounds blocked occ st)
    (hcur : Resolv st.2.2 start current) :
    StInv start bounds blocked occ (tryEnqueue bounds blocked occ current st d) ∧
      Resolv (tryEnqueue bounds blocked occ current st d).2.2 start current := by
  obtain ⟨queue, visited, prev⟩ := st
  obtain ⟨hg, hsv, hkv, hq⟩ := hinv
  unfold tryEnqueue
  dsimp only
  split
  case isTrue hguard =>
    simp only [Bool.and_eq_true, Bool.not_eq_true'] at hguard
    obtain ⟨⟨⟨hin, hbl⟩, hvis⟩, hocc⟩ := hguard
    have hnv : stepCell current d ∉ visited := contains_false_not_mem hvis
    have hns : stepCell current d ≠ start := fun he => hnv (he ▸ hsv)
    have hfresh : prev.lookup (stepCell current d) = none := by
      cases hl : prev.lookup (stepCell current d) with
      | none => rfl
      | some p => exact absurd (hkv _ (by simp [hl])) hnv
    have hocc2 : occ.lookup (stepCell current d) ≠ some Axis.hv :=
      beq_eq_false_iff_ne.mp hocc
    have hg2 : GoodPrev start bounds blocked occ
        ((stepCell current d, current) :: prev) :=
      GoodPrev.cons hg hns hfresh hcur ⟨d, rfl⟩ hin hbl hocc2
    refine ⟨⟨hg2, List.mem_cons_of_mem _ hsv, ?_, ?_⟩, resolv_cons hcur⟩
    · intro x hx
      by_cases hxn : x == stepCell current d
      · simp only [List.mem_cons]
        left
        simpa using hxn
      · simp only [List.lookup, hxn] at hx
        exact List.mem_cons_of_mem _ (hkv x hx)
    · intro x hx
      rcases List.mem_append.mp hx with hx | hx
      · exact resolv_cons (hq x hx)
      · right
        simp only [List.mem_singleton] at hx
        subst hx
        simp [List.lookup]
  case isFalse =>
    exact ⟨⟨hg, hsv, hkv, hq⟩, hcur⟩

theorem foldl_tryEnqueue_inv {start : Cell} {bounds : Bounds} {blocked : List Cell}
    {occ : Occ} {current : Cell} :
    ∀ (ds : List Dir) (st : List Cell × List Cell × List (Cell × Cell)),
      StInv start bounds blocked occ st → Resolv st.2.2 start current →
      StInv start bounds blocked occ
        (ds.foldl (tryEnqueue bounds blocked occ current) st) ∧
      Resolv (ds.foldl (tryEnqueue bounds blocked occ current) st).2.2 start current := by
  intro ds
  induction ds with
  | nil => intro st h hc; exact ⟨h, hc⟩
  | cons d ds ih =>
    intro st h hc
    obtain ⟨h2, hc2⟩ := tryEnqueue_inv d h hc
    exact ih _ h2 hc2

theorem bfsLoop_sound {start : Cell} {targets : List Cell} {bounds : Bounds}
    {blocked : List Cell} {occ : Occ} :
    ∀ (fuel : Nat) (queue visited : List Cell) (prev : List (Cell × Cell)),
      StInv start bounds blocked occ (queue, visited, prev) →
      ∀ {path : List Cell},
        bfsLoop start targets bounds blocked occ fuel queue visited prev = some path →
        path ≠ [] ∧ path.head? = some start ∧
        (∃ t, path.getLast? = some t ∧ t ∈ targets ∧ t ≠ start) ∧
        List.Chain' IsStep path ∧
        (∀ x ∈ path, x = start ∨
          (inBounds x bounds = true ∧ blocked.contains x = false ∧
            occ.lookup x ≠ some Axis.hv)) := by
  intro fuel
  induction fuel with
  | zero => intro queue visited prev hinv path h; simp [bfsLoop] at h
  | succ n ih =>
    intro queue visited prev hinv path h
    cases queue with
    | nil => simp [bfsLoop] at h
    | cons current rest =>
      obtain ⟨hg, hsv, hkv, hq⟩ := hinv
      have hcur : Resolv prev start current := hq current (by simp)
      rw [bfsLoop] at h
      split at h
      case isTrue htarget =>
        injection h with h
        subst h
        obtain ⟨hne, hhead, hlast, hchain, hmem⟩ :=
          walk_sound hg prev.length (le_refl _) current hcur
        refine ⟨by simpa using hne, ?_, ⟨current, ?_, htarget.1, htarget.2⟩, ?_, ?_⟩
        · rw [List.head?_reverse]
          exact hlast
        · rw [List.getLast?_reverse]
          exact hhead
        · rw [List.chain'_reverse]
          exact hchain
        · intro x hx
          rw [List.mem_reverse] at hx
          exact hmem x hx
      case isFalse =>
        have hrest : ∀ x ∈ rest, Resolv prev start x :=
          fun x hx => hq x (by simp [hx])
        have hinv2 : StInv start bounds blocked occ (rest, visited, prev) :=
          ⟨hg, hsv, hkv, hrest⟩
        obtain ⟨hfold, -⟩ := foldl_tryEnqueue_inv [Dir.up, .right, .down, .left]
          (rest, visited, prev) hinv2 hcur
        exact ih _ _ _ hfold h

theorem bfsPath_sound {start : Cell} {targets : List Cell} {bounds : Bounds}
    {blocked : List Cell} {occ : Occ} {path : List Cell}
    (h : bfsPath start targets bounds blocked occ = some path) :
    path ≠ [] ∧ path.head? = some start ∧
    (∃ t, path.getLast? = some t ∧ t ∈ targets ∧ t ≠ start) ∧
    List.Chain' IsStep path ∧
    (∀ x ∈ path, x = start ∨
      (inBounds x bounds = true ∧ blocked.contains x = false ∧
        occ.lookup x ≠ some Axis.hv)) := by
  refine bfsLoop_sound _ [start] [start] [] ?_ h
  refine ⟨GoodPrev.nil, by simp, ?_, ?_⟩
  · intro x hx
    simp [List.lookup] at hx
  · intro x hx
    simp only [List.mem_singleton] at hx
    exact Or.inl hx

theorem findChosenPath_sound {targets : List Cell} {bounds : Bounds}
    {blocked : List Cell} {occ : Occ} :
    ∀ {starts : List Cell} {path : List Cell},
      findChosenPath targets bounds blocked occ starts = some path →
      ∃ start ∈ starts, inBounds start bounds = true ∧
        blocked.contains start = false ∧
        bfsPath start targets bounds blocked occ = some path ∧
        3 ≤ path.length := by
  intro starts
  induction starts with
  | nil => intro path h; simp [findChosenPath] at h
  | cons s rest ih =>
    intro path h
    rw [findChosenPath] at h
    split at h
    case isTrue =>
      obtain ⟨st, hmem, hrest⟩ := ih h
      exact ⟨st, List.mem_cons_of_mem _ hmem, hrest⟩
    case isFalse hcond =>
      simp only [Bool.or_eq_true, Bool.not_eq_true', not_or, Bool.not_eq_true,
        Bool.not_eq_false] at hcond
      split at h
      case h_1 p hp =>
        split at h
        case isTrue hlen =>
          injection h with h
          subst h
          exact ⟨s, List.mem_cons_self s rest, hcond.1, hcond.2, hp, hlen⟩
        case isFalse =>
          obtain ⟨st, hmem, hrest⟩ := ih h
          exact ⟨st, List.mem_cons_of_mem _ hmem, hrest⟩
      case h_2 =>
        obtain ⟨st, hmem, hrest⟩ := ih h
        exact ⟨st, List.mem_cons_of_mem _ hmem, hrest⟩

theorem commitSegs_step (eid : String) (prevC : Option Cell) (curr next : Cell)
    (rest : List Cell) (convs : List ConveyorSegment) (occ : Occ) :
    commitSegs eid prevC (curr :: next :: rest) convs occ =
      commitSegs eid (some curr) (next :: rest)
        (convs ++ [commitSegOf eid prevC curr next occ])
        (commitOccOf curr next occ) := rfl

theorem commitSegs_spec (eid : String) :
    ∀ (rest : List Cell) (curr next : Cell) (prevC : Option Cell)
      (convs : List ConveyorSegment) (occ : Occ),
      List.Chain' IsStep (curr :: next :: rest) →
      ∃ q occ2,
        commitSegs eid prevC (curr :: next :: rest) convs occ = (convs ++ q, occ2) ∧
        q.length = rest.length + 1 ∧
        (∀ s ∈ q, s.edgeId = eid) ∧
        List.Chain' SegStep q ∧
        q.head? = some (commitSegOf eid prevC curr next occ) ∧
        (∃ sl tl, q.getLast? = some sl ∧ (curr :: next :: rest).getLast? = some tl ∧
          stepCell (segCell sl) sl.outDirection = tl) := by
  intro rest
  induction rest with
  | nil =>
    intro curr next prevC convs occ hchain
    have hstep0 : IsStep curr next := (List.chain'_cons.mp hchain).1
    refine ⟨[commitSegOf eid prevC curr next occ], commitOccOf curr next occ,
      rfl, rfl, ?_, ?_, rfl, ?_⟩
    · intro s hs
      simp only [List.mem_singleton] at hs
      subst hs
      rfl
    · simp
    · exact ⟨commitSegOf eid prevC curr next occ, next, rfl, rfl,
        stepCell_direction hstep0⟩
  | cons r rs ih =>
    intro curr next prevC convs occ hchain
    have hstep0 : IsStep curr next := (List.chain'_cons.mp hchain).1
    have hchain1 : List.Chain' IsStep (next :: r :: rs) := (List.chain'_cons.mp hchain).2
    obtain ⟨q2, occ3, heq, hlen, hedge, hchainq, hhead, hlast⟩ :=
      ih next r (some curr) (convs ++ [commitSegOf eid prevC curr next occ])
        (commitOccOf curr next occ) hchain1
    have hq2ne : q2 ≠ [] := by
      intro he
      rw [he] at hlen
      simp at hlen
    refine ⟨commitSegOf eid prevC curr next occ :: q2, occ3, ?_, ?_, ?_, ?_, rfl, ?_⟩
    · rw [commitSegs_step, heq]
      simp
    · simp [hlen]
    · intro s hs
      rcases List.mem_cons.mp hs with rfl | hs
      · rfl
      · exact hedge s hs
    · rw [List.chain'_cons']
      refine ⟨?_, hchainq⟩
      intro y hy
      rw [hhead] at hy
      simp only [Option.mem_some_iff] at hy
      subst hy
      exact ⟨(stepCell_direction hstep0).symm, rfl⟩
    · obtain ⟨sl, tl, h1, h2, h3⟩ := hlast
      refine ⟨sl, tl, ?_, ?_, h3⟩
      · rw [getLast?_cons_ne hq2ne]
        exact h1
      · rw [List.getLast?_cons_cons]
        exact h2

theorem commitSegs_mono (eid : String) :
    ∀ (path : List Cell) (prevC : Option Cell) (convs : List ConveyorSegment)
      (occ : Occ),
      ∃ q, (commitSegs eid prevC path convs occ).1 = convs ++ q := by
  intro path
  induction path with
  | nil => intro prevC convs occ; exact ⟨[], by simp [commitSegs]⟩
  | cons c rest ih =>
    cases rest with
    | nil => intro prevC convs occ; exact ⟨[], by simp [commitSegs]⟩
    | cons nxt rest2 =>
      intro prevC convs occ
      rw [commitSegs_step]
      obtain ⟨q, hq⟩ := ih (some c) (convs ++ [commitSegOf eid prevC c nxt occ])
        (commitOccOf c nxt occ)
      exact ⟨commitSegOf eid prevC c nxt occ :: q, by rw [hq]; simp⟩

theorem routeEdges_mono {bounds : Bounds} {blocked : List Cell}
    {placements : List PlacedBuilding} :
    ∀ (edges : List MaterialFlowEdge) (occ : Occ)
      (convs final : List ConveyorSegment),
      routeEdges bounds blocked placements edges occ convs = ⟨true, final⟩ →
      ∃ suffix, final = convs ++ suffix := by
  intro edges
  induction edges with
  | nil =>
    intro occ convs final h
    rw [routeEdges] at h
    injection h with h1 h2
    exact ⟨[], by simp [h2]⟩
  | cons e rest ih =>
    intro occ convs final h
    rw [routeEdges] at h
    cases hf : placementById placements e.fromId with
    | none => rw [hf] at h; exact absurd h (by simp)
    | some fp =>
    cases ht : placementById placements e.toId with
    | none => rw [hf, ht] at h; exact absurd h (by simp)
    | some tp =>
    rw [hf, ht] at h
    dsimp only at h
    cases hp : findChosenPath (getInputPorts tp) bounds blocked occ
        (getOutputPorts fp) with
    | none => rw [hp] at h; exact absurd h (by simp)
    | some path =>
    rw [hp] at h
    obtain ⟨q, hq⟩ := commitSegs_mono e.id path none convs occ
    obtain ⟨suffix, hs⟩ := ih _ _ _ h
    refine ⟨q ++ suffix, ?_⟩
    rw [hs, hq, List.append_assoc]

theorem routeEdges_spec {bounds : Bounds} {blocked : List Cell}
    {placements : List PlacedBuilding} :
    ∀ (edges : List MaterialFlowEdge) (occ : Occ)
      (convs final : List ConveyorSegment),
      routeEdges bounds blocked placements edges occ convs = ⟨true, final⟩ →
      ∀ e ∈ edges, ∃ fp tp,
        placementById placements e.fromId = some fp ∧
        placementById placements e.toId = some tp ∧
        ∃ q : List ConveyorSegment, q ≠ [] ∧ 2 ≤ q.length ∧
          (∀ s ∈ q, s ∈ final) ∧ (∀ s ∈ q, s.edgeId = e.id) ∧
          List.Chain' SegStep q ∧
          (∃ s0, q.head? = some s0 ∧ segCell s0 ∈ getOutputPorts fp) ∧
          (∃ sl, q.getLast? = some sl ∧
            stepCell (segCell sl) sl.outDirection ∈ getInputPorts tp) := by
  intro edges
  induction edges with
  | nil => intro occ convs final h e he; exact absurd he (List.not_mem_nil e)
  | cons e0 rest ih =>
    intro occ convs final h e he
    rw [routeEdges] at h
    cases hf : placementById placements e0.fromId with
    | none => rw [hf] at h; exact absurd h (by simp)
    | some fp0 =>
    cases ht : placementById placements e0.toId with
    | none => rw [hf, ht] at h; exact absurd h (by simp)
    | some tp0 =>
    rw [hf, ht] at h
    dsimp only at h
    cases hp : findChosenPath (getInputPorts tp0) bounds blocked occ
        (getOutputPorts fp0) with
    | none => rw [hp] at h; exact absurd h (by simp)
    | some path =>
    rw [hp] at h
    dsimp only at h
    rcases List.mem_cons.mp he with rfl | he2
    · obtain ⟨start, hsmem, hsin, hsbl, hbfs, hlen3⟩ := findChosenPath_sound hp
      obtain ⟨hpne, hphead, ⟨t, hptl, htmem, htne⟩, hpchain, hpmem⟩ := bfsPath_sound hbfs
      rcases path with - | ⟨c1, path1⟩
      · simp at hlen3
      rcases path1 with - | ⟨c2, path2⟩
      · simp at hlen3
      obtain ⟨q, occ2, hceq, hqlen, hqedge, hqchain, hqhead, sl, tl, hql, hptl2, hqstep⟩ :=
        commitSegs_spec e.id path2 c1 c2 none convs occ hpchain
      have hc1 : c1 = start := by simpa using hphead
      have htl : tl = t := Option.some.inj (hptl2.symm.trans hptl)
      have hcommit1 : (commitSegs e.id none (c1 :: c2 :: path2) convs occ).1 = convs ++ q := by
        rw [hceq]
      have hcommit2 : (commitSegs e.id none (c1 :: c2 :: path2) convs occ).2 = occ2 := by
        rw [hceq]
      rw [hcommit1, hcommit2] at h
      obtain ⟨suffix, hsuf⟩ := routeEdges_mono rest occ2 (convs ++ q) final h
      refine ⟨fp0, tp0, hf, ht, q, ?_, ?_, ?_, hqedge, hqchain, ?_, ?_⟩
      · intro hqe
        rw [hqe] at hqlen
        simp at hqlen
      · have : 3 ≤ path2.length + 2 := by simpa using hlen3
        omega
      · intro s hs
        rw [hsuf]
        exact List.mem_append.mpr (Or.inl (List.mem_append.mpr (Or.inr hs)))
      · exact ⟨commitSegOf e.id none c1 c2 occ, hqhead, by
          show segCell (commitSegOf e.id none c1 c2 occ) ∈ getOutputPorts fp0
          have : segCell (commitSegOf e.id none c1 c2 occ) = c1 := rfl
          rw [this, hc1]
          exact hsmem⟩
      · refine ⟨sl, hql, ?_⟩
        rw [hqstep, htl]
        exact htmem
    · exact ih _ _ _ h e he2

theorem solveIter_sat {graph : ProductionGraph} {config : SolverConfig}
    {oracle : Oracle} {cancel : Nat → Bool} :
    ∀ (fuel k : Nat) (bounds : Bounds) (attempts : List SolverAttempt)
      {sol : LayoutSolution},
      solveIter graph config oracle cancel k fuel bounds attempts = sol →
      sol.status = .sat →
      ∃ model bounds2 attempts2,
        (routeConveyorsForSolution graph
          (extractSatSolution graph model attempts2 0 bounds2)).ok = true ∧
        sol.placements =
          (extractSatSolution graph model attempts2 0 bounds2).placements ∧
        sol.conveyors =
          (routeConveyorsForSolution graph
            (extractSatSolution graph model attempts2 0 bounds2)).conveyors := by
  intro fuel
  induction fuel with
  | zero =>
    intro k bounds attempts sol hsol hstat
    subst hsol
    simp [solveIter, createUnsatSolution] at hstat
  | succ n ih =>
    intro k bounds attempts sol hsol hstat
    rw [solveIter] at hsol
    split at hsol
    case isTrue =>
      subst hsol
      simp [createUnknownSolution] at hstat
    case isFalse =>
      cases ho : oracle k with
      | sat model =>
        rw [ho] at hsol
        dsimp only at hsol
        split at hsol
        case isTrue hok =>
          subst hsol
          exact ⟨model, bounds, attempts, hok, rfl, rfl⟩
        case isFalse =>
          exact ih _ _ _ hsol hstat
      | unknown =>
        rw [ho] at hsol
        subst hsol
        simp [createUnknownSolution] at hstat
      | unsat =>
        rw [ho] at hsol
        exact ih _ _ _ hsol hstat

theorem placementById_extract {graph : ProductionGraph} {m : Model}
    {attempts : List SolverAttempt} {el : Int} {bounds : Bounds} {id : String}
    {p : PlacedBuilding}
    (h : placementById (extractSatSolution graph m attempts el bounds).placements id
      = some p) :
    ∃ n ∈ graph.nodes, n.id = id := by
  unfold placementById at h
  have hmem := List.mem_of_find?_eq_some h
  have hpred := List.find?_some h
  rw [List.mem_reverse] at hmem
  simp only [extractSatSolution, List.mem_map] at hmem
  obtain ⟨n, hn, rfl⟩ := hmem
  exact ⟨n, hn, by simpa using hpred⟩


/-! ## C1 — edge realization in returned segments -/

/-- C1 counterexample: in the `sat` run `runAB` the single material edge is
routed along the 3-cell path `(0,3), (0,4), (0,5)`, but `commitPath` stops
one short of the final input-face cell, so the returned segments sit only on
`(0,3)` and `(0,4)`: no connected chain of 3 segment cells from the output
face of `a` to the input face of `b` exists among the returned segments. -/
theorem c1_counterexample :
    runAB.status = .sat ∧
    satisfiesPlacementConstraints graphAB ⟨3, 9⟩ modelAB = true ∧
    ¬ ClaimC1Holds graphAB runAB := by
  refine ⟨by decide, by decide, ?_⟩
  intro h
  obtain ⟨fp, tp, hfp, htp, q, hq, hlen, hchain, ⟨s0, hh0, hout⟩, -⟩ :=
    h ⟨"e1", "a", "b", "x", 1⟩ (by decide)
  have hfp2 : placementById runAB.placements "a" =
      some (⟨"a", 0, 0, 3, 3⟩ : PlacedBuilding) := by decide
  rw [show (⟨"e1", "a", "b", "x", 1⟩ : MaterialFlowEdge).fromId = "a" from rfl,
    hfp2] at hfp
  injection hfp with hfp
  subst hfp
  have hconv : runAB.conveyors =
      [(⟨0, 3, .down, .down, false, "e1"⟩ : ConveyorSegment),
        (⟨0, 4, .down, .down, false, "e1"⟩ : ConveyorSegment)] := by decide
  rw [hconv] at hq
  rcases q with - | ⟨a, q⟩
  · simp at hlen
  rcases q with - | ⟨b, q⟩
  · simp at hlen
  rcases q with - | ⟨c, q⟩
  · simp at hlen
  simp only [List.head?_cons, Option.some.injEq] at hh0
  subst hh0
  have ha := hq a (by simp)
  have hb := hq b (by simp)
  have hcc := hq c (by simp)
  have hstep1 := (List.chain'_cons.mp hchain).1
  have hchain2 := (List.chain'_cons.mp hchain).2
  have hstep2 := (List.chain'_cons.mp hchain2).1
  simp only [List.mem_cons, List.mem_singleton, List.not_mem_nil, or_false] at ha hb hcc
  rcases ha with rfl | rfl
  · -- first segment at (0,3)
    rcases hb with rfl | rfl
    · exact absurd hstep1.1 (by decide)
    · -- second segment at (0,4); a third chained cell would sit at (0,5)
      rcases hcc with rfl | rfl
      · exact absurd hstep2.1 (by decide)
      · exact absurd hstep2.1 (by decide)
  · -- first segment at (0,4): not on the output face
    exact absurd hout (by decide)

/-- C1 amended: for every `sat` solve run and every material edge, the
returned segments contain a connected chain of at least 2 cells whose first
cell lies on the output face of the source placement, whose consecutive
cells are linked by the `Out` direction of one cell pointing at (and
equalling the `In` direction of) the next, and whose last cell's `Out`
direction points at an input-face cell of the destination placement (the
router drops the final input-face cell of its ≥ 3-cell path). -/
theorem c1_route_chain (graph : ProductionGraph) (config : SolverConfig)
    (oracle : Oracle) (cancel : Nat → Bool) (sol : LayoutSolution)
    (hsol : solveWithIterativeBounds graph config oracle cancel = sol)
    (hsat : sol.status = .sat) :
    ∀ e ∈ graph.edges, ∃ fp tp,
      placementById sol.placements e.fromId = some fp ∧
      placementById sol.placements e.toId = some tp ∧
      ∃ q : List ConveyorSegment, q ≠ [] ∧ 2 ≤ q.length ∧
        (∀ s ∈ q, s ∈ sol.conveyors) ∧ (∀ s ∈ q, s.edgeId = e.id) ∧
        List.Chain' SegStep q ∧
        (∃ s0, q.head? = some s0 ∧ segCell s0 ∈ getOutputPorts fp) ∧
        (∃ sl, q.getLast? = some sl ∧
          stepCell (segCell sl) sl.outDirection ∈ getInputPorts tp) := by
  rw [solveWithIterativeBounds] at hsol
  obtain ⟨model, bounds2, attempts2, hok, hplace, hconv⟩ :=
    solveIter_sat _ _ _ _ hsol hsat
  intro e he
  rcases hrr : routeConveyorsForSolution graph
      (extractSatSolution graph model attempts2 0 bounds2) with ⟨rok, convs⟩
  rw [hrr] at hok hconv
  dsimp only at hok hconv
  subst hok
  rw [routeConveyorsForSolution] at hrr
  obtain ⟨fp, tp, hf, ht, q, hqne, hqlen, hqmem, hqedge, hqchain, hqhead, hqlast⟩ :=
    routeEdges_spec graph.edges [] [] convs hrr e he
  refine ⟨fp, tp, ?_, ?_, q, hqne, hqlen, ?_, hqedge, hqchain, hqhead, hqlast⟩
  · rw [hplace]
    exact hf
  · rw [hplace]
    exact ht
  · intro s hs
    rw [hconv]
    exact hqmem s hs

/-- Witness for `c1_route_chain` on the concrete run `runAB`. -/
theorem c1_route_chain_witness :
    runAB.status = .sat ∧
    (∀ e ∈ graphAB.edges, ∃ fp tp,
      placementById runAB.placements e.fromId = some fp ∧
      placementById runAB.placements e.toId = some tp ∧
      ∃ q : List ConveyorSegment, q ≠ [] ∧ 2 ≤ q.length ∧
        (∀ s ∈ q, s ∈ runAB.conveyors) ∧ (∀ s ∈ q, s.edgeId = e.id) ∧
        List.Chain' SegStep q ∧
        (∃ s0, q.head? = some s0 ∧ segCell s0 ∈ getOutputPorts fp) ∧
        (∃ sl, q.getLast? = some sl ∧
          stepCell (segCell sl) sl.outDirection ∈ getInputPorts tp)) :=
  ⟨by decide, c1_route_chain graphAB cfgTall (fun _ => .sat modelAB)
    (fun _ => false) runAB rfl (by decide)⟩

/-! ## C2 — machine adjacency -/

/-- C2 counterexample: the arithmetic encoding's run `runSide` returns
status `sat` with the two crushers placed edge-to-edge, so cells of
distinct nodes do share a grid edge; the model handed back by the oracle
satisfies every constraint asserted by `buildPlacementConstraints`, so it
is a model Z3 may return. -/
theorem c2_counterexample :
    runSide.status = .sat ∧
    satisfiesPlacementConstraints graphSide ⟨6, 3⟩ modelSide = true ∧
    ¬ ClaimC2Holds runSide := by decide

/-- Footprint membership unfolded to coordinate inequalities. -/
theorem mem_footprintCells {p : PlacedBuilding} {c : Cell} :
    c ∈ footprintCells p ↔
      p.x ≤ c.1 ∧ c.1 < p.x + p.width ∧ p.y ≤ c.2 ∧ c.2 < p.y + p.height := by
  obtain ⟨cx, cy⟩ := c
  unfold footprintCells
  simp only [List.mem_flatMap, List.mem_map, List.mem_range, Prod.mk.injEq,
    Int.ofNat_eq_natCast]
  constructor
  · rintro ⟨dx, hdx, dy, hdy, h1, h2⟩
    omega
  · rintro ⟨h1, h2, h3, h4⟩
    exact ⟨(cx - p.x).toNat, by omega, (cy - p.y).toNat, by omega, by omega, by omega⟩

/-- The nested pair loops assert the separation disjunction pairwise. -/
theorem allPairsOk_pairwise {m : Model} {l : List MachineNode}
    (h : allPairsOk m l = true) :
    List.Pairwise (fun a b => pairOk m a b = true) l := by
  induction l with
  | nil => exact List.Pairwise.nil
  | cons node rest ih =>
    simp only [allPairsOk, Bool.and_eq_true, List.all_eq_true] at h
    exact List.Pairwise.cons (fun b hb => h.1 b hb) (ih h.2)

/-- C2 amended: the arithmetic encoding guarantees only that footprints of
distinct nodes are pairwise disjoint (the four-way separation disjunction
forbids overlap but allows touching); edge-adjacency is not excluded. -/
theorem c2_no_overlap (graph : ProductionGraph) (bounds : Bounds) (m : Model)
    (h : satisfiesPlacementConstraints graph bounds m = true) :
    List.Pairwise (fun p1 p2 => ∀ c ∈ footprintCells p1, c ∉ footprintCells p2)
      (extractSatSolution graph m [] 0 bounds).placements := by
  have hpairs : allPairsOk m graph.nodes = true := by
    simp only [satisfiesPlacementConstraints, Bool.and_eq_true] at h
    exact h.2
  have hpw := allPairsOk_pairwise hpairs
  simp only [extractSatSolution]
  rw [List.pairwise_map]
  refine hpw.imp ?_
  intro a b hab c hc1 hc2
  rw [mem_footprintCells] at hc1 hc2
  simp only [pairOk, Bool.or_eq_true, decide_eq_true_eq] at hab
  rcases hma : m a.id with ⟨ax, ay⟩
  rcases hmb : m b.id with ⟨bx, ny⟩
  rw [hma, hmb] at hab
  simp only [hma, hmb] at hc1 hc2
  rcases hab with ((h1 | h1) | h1) | h1 <;> omega

/-- Witness for `c2_no_overlap` at the side-by-side instance. -/
theorem c2_no_overlap_witness :
    satisfiesPlacementConstraints graphSide ⟨6, 3⟩ modelSide = true ∧
    List.Pairwise (fun p1 p2 => ∀ c ∈ footprintCells p1, c ∉ footprintCells p2)
      (extractSatSolution graphSide modelSide [] 0 ⟨6, 3⟩).placements :=
  ⟨by decide, c2_no_overlap graphSide ⟨6, 3⟩ modelSide (by decide)⟩

/-! ## C6 — conveyor direction distinctness -/

/-- C6 counterexample: the `sat` solution `runAB` contains a non-bridge
conveyor segment with `inDirection = outDirection` (the router records the
travel direction on both sides, so every straight segment has equal
directions). -/
theorem c6_counterexample :
    runAB.status = .sat ∧
    satisfiesPlacementConstraints graphAB ⟨3, 9⟩ modelAB = true ∧
    ¬ ClaimC6Holds runAB := by decide

/-- The direction bit named by `csExtractIn` is active. -/
theorem csExtractIn_active {t : CsTile} {d : Dir} (h : csExtractIn t = some d) :
    (match d with
      | .up => t.inUp
      | .right => t.inRight
      | .down => t.inDown
      | .left => t.inLeft) = true := by
  unfold csExtractIn at h
  cases d <;> (repeat' split at h) <;> simp_all

/-- The direction bit named by `csExtractOut` is active. -/
theorem csExtractOut_active {t : CsTile} {d : Dir} (h : csExtractOut t = some d) :
    (match d with
      | .up => t.outUp
      | .right => t.outRight
      | .down => t.outDown
      | .left => t.outLeft) = true := by
  unfold csExtractOut at h
  cases d <;> (repeat' split at h) <;> simp_all

/-- C6 amended: in the cell-based (C#) encoding, any tile satisfying the
per-tile direction constraints that is a conveyor yields extracted in/out
directions that differ. -/
theorem c6_cs_conveyor_dirs (t : CsTile) (h : csTileConstraintsOk t = true)
    (hc : t.isConveyor = true) :
    ∀ d1 d2, csExtractIn t = some d1 → csExtractOut t = some d2 → d1 ≠ d2 := by
  intro d1 d2 hin hout heq
  subst heq
  have hia := csExtractIn_active hin
  have hoa := csExtractOut_active hout
  simp only [csTileConstraintsOk, Bool.and_eq_true, and_assoc] at h
  obtain ⟨-, -, -, -, -, -, -, -, -, -, -, -, -, -, -, -, -, -, -, -, -, -, -,
    -, -, h26, h27, h28, h29, -, -, -, -, -, -⟩ := h
  cases d1 <;> simp_all [Bool.or_eq_true, Bool.not_eq_true', Bool.and_eq_true]

/-- Witness for `c6_cs_conveyor_dirs` at the concrete tile `csTileDown`. -/
theorem c6_cs_conveyor_dirs_witness :
    csTileConstraintsOk csTileDown = true ∧ csTileDown.isConveyor = true ∧
    Dir.up ≠ Dir.down :=
  ⟨by decide, by decide,
    c6_cs_conveyor_dirs csTileDown (by decide) (by decide) .up .down
      (by decide) (by decide)⟩

/-! ## C5 — edge multiplicity per cell -/

/-- C5 counterexample: routing the two parallel edges of `graphAB2` sends
both down the same column; the cell `(0, 3)` ends up holding two non-bridge
conveyor segments carrying the two distinct edges `e1` and `e2`. -/
theorem c5_counterexample :
    runAB2.status = .sat ∧
    satisfiesPlacementConstraints graphAB2 ⟨3, 9⟩ modelAB = true ∧
    ¬ ClaimC5Holds runAB2 := by decide

/-- C5 amended: the only per-cell exclusivity the router enforces is that a
BFS path never enters a cell that is already occupied on both axes
(`'hv'`); cells occupied on a single axis may be reused by further edges
travelling the same axis. -/
theorem c5_bfs_avoids_hv (start : Cell) (targets : List Cell) (bounds : Bounds)
    (blocked : List Cell) (occupied : Occ) (path : List Cell)
    (h : bfsPath start targets bounds blocked occupied = some path) :
    ∀ c ∈ path, c ≠ start → occupied.lookup c ≠ some Axis.hv := by
  intro c hc hcs
  rcases (bfsPath_sound h).2.2.2.2 c hc with h1 | h1
  · exact absurd h1 hcs
  · exact h1.2.2

/-- Witness for `c5_bfs_avoids_hv`: the BFS run of the second parallel edge
of `graphAB2`, whose start column is already occupied on the vertical
axis. -/
theorem c5_bfs_avoids_hv_witness :
    bfsPath ((0 : Int), (3 : Int)) [((0 : Int), (5 : Int)), (1, 5), (2, 5)] ⟨3, 9⟩
        (buildBlockedCells [⟨"a", 0, 0, 3, 3⟩, ⟨"b", 0, 6, 3, 3⟩])
        [(((0 : Int), (3 : Int)), Axis.v), (((0 : Int), (4 : Int)), Axis.v)] =
      some [((0 : Int), (3 : Int)), (0, 4), (0, 5)] ∧
    (∀ c ∈ [((0 : Int), (3 : Int)), ((0 : Int), (4 : Int)), ((0 : Int), (5 : Int))],
      c ≠ ((0 : Int), (3 : Int)) →
      List.lookup c
          [(((0 : Int), (3 : Int)), Axis.v), (((0 : Int), (4 : Int)), Axis.v)] ≠
        some Axis.hv) :=
  ⟨by decide,
    c5_bfs_avoids_hv ((0 : Int), (3 : Int)) [((0 : Int), (5 : Int)), (1, 5), (2, 5)]
      ⟨3, 9⟩ (buildBlockedCells [⟨"a", 0, 0, 3, 3⟩, ⟨"b", 0, 6, 3, 3⟩])
      [(((0 : Int), (3 : Int)), Axis.v), (((0 : Int), (4 : Int)), Axis.v)]
      [((0 : Int), (3 : Int)), (0, 4), (0, 5)] (by decide)⟩

/-! ## C3 — initial bounds estimate -/

/-- C3 counterexample: for a single grinder (area 18, long side 6) the
first attempted rectangle is `(5, 5)` — the bare `⌈√18⌉` — not the
`(6, 6)` that `max(L, S, ⌈√A⌉)` would give. -/
theorem c3_counterexample :
    runGrinder.attempts.head? = some ⟨1, 5, 5, .unsat⟩ ∧
    specInitialSide graphGrinder = 6 ∧
    estimateInitialBounds graphGrinder = ⟨5, 5⟩ ∧
    (5 : Int) ≠ 6 := by decide

/-! ## C4 — exhaustion bounds -/

/-- C4 counterexample: with fixed width, start `(3, 3)`, step 1 and
`maxIterations = 1`, the all-unsat run records a single attempt at
`(3, 3)` but reports terminal bounds `(3, 4)` — one expansion past the
last-probed rectangle, where the claim demands `(3, 3 + 1·(1−1)) = (3, 3)`. -/
theorem c4_counterexample :
    runFixedW.status = .unsat ∧
    runFixedW.attempts = [⟨1, 3, 3, .unsat⟩] ∧
    runFixedW.bounds = ⟨3, 4⟩ ∧
    Bounds.mk 3 4 ≠ Bounds.mk 3 (3 + 1 * ((1 : Int) - 1)) := by decide

/-- C8 amended: invalid inputs are not rejected. With an edge endpoint
referencing no present node, every solve run still iterates and can never
return `sat` (routing always fails), and a non-positive `expansionStep` is
silently clamped to 1 by the expansion policy instead of being rejected. -/
theorem c8_no_validation (graph : ProductionGraph) (config : SolverConfig)
    (oracle : Oracle) (cancel : Nat → Bool)
    (hdangling : hasDanglingEdge graph = true) :
    (solveWithIterativeBounds graph config oracle cancel).status ≠ .sat ∧
    (∀ (b : Bounds) (k : Nat), config.expansionStep ≤ 0 →
      expandBounds b config k =
        expandBounds b { config with expansionStep := 1 } k) := by
  constructor
  · intro hsat
    obtain ⟨model, bounds2, attempts2, hok, -, -⟩ :=
      solveIter_sat config.maxIterations 1 (resolveInitialBounds graph config) []
        rfl hsat
    rcases hrr : routeConveyorsForSolution graph
        (extractSatSolution graph model attempts2 0 bounds2) with ⟨rok, convs⟩
    rw [hrr] at hok
    dsimp only at hok
    subst hok
    rw [routeConveyorsForSolution] at hrr
    simp only [hasDanglingEdge, List.any_eq_true] at hdangling
    obtain ⟨e, he, hcond⟩ := hdangling
    obtain ⟨fp, tp, hf, ht, -⟩ := routeEdges_spec graph.edges [] [] convs hrr e he
    have hcond2 : (graph.nodes.any fun n => n.id == e.fromId) = false ∨
        (graph.nodes.any fun n => n.id == e.toId) = false := by
      rcases Bool.or_eq_true_iff.mp hcond with hx | hx
      · exact Or.inl (by simpa using hx)
      · exact Or.inr (by simpa using hx)
    rcases hcond2 with hside | hside
    · obtain ⟨n, hn, hnid⟩ := placementById_extract hf
      rw [List.any_eq_false] at hside
      exact hside n hn (by simp [hnid])
    · obtain ⟨n, hn, hnid⟩ := placementById_extract ht
      rw [List.any_eq_false] at hside
      exact hside n hn (by simp [hnid])
  · intro b k hstep
    have h1 : max (1 : Int) config.expansionStep = 1 := max_eq_left (by omega)
    cases hm : config.fixedDimensionMode <;>
      simp [expandBounds, h1, hm]

/-- Witness for `c8_no_validation` on the dangling-edge instance with
`expansionStep = 0`. -/
theorem c8_no_validation_witness :
    hasDanglingEdge graphDangling = true ∧
    ((solveWithIterativeBounds graphDangling cfgDangling (fun _ => .sat modelOrigin)
        (fun _ => false)).status ≠ .sat ∧
      (∀ (b : Bounds) (k : Nat), cfgDangling.expansionStep ≤ 0 →
        expandBounds b cfgDangling k =
          expandBounds b { cfgDangling with expansionStep := 1 } k)) :=
  ⟨by decide,
    c8_no_validation graphDangling cfgDangling (fun _ => .sat modelOrigin)
      (fun _ => false) (by decide)⟩

/-- Closed form of an all-unsat run: every iteration records an unsat
attempt and expands, and the loop ends with the expanded bounds. -/
theorem solveIter_allUnsat (graph : ProductionGraph) (config : SolverConfig)
    (oracle : Oracle) (cancel : Nat → Bool)
    (ho : ∀ k, oracle k = .unsat) (hc : ∀ k, cancel k = false) :
    ∀ fuel k b attempts,
      solveIter graph config oracle cancel k fuel b attempts =
        createUnsatSolution (attempts ++ unsatAttempts config k fuel b) 0
          (finalBounds config k fuel b) := by
  intro fuel
  induction fuel with
  | zero => intro k b attempts; simp [solveIter, unsatAttempts, finalBounds]
  | succ n ih =>
    intro k b attempts
    simp only [solveIter, hc k, ho k, unsatAttempts, finalBounds]
    rw [ih]
    simp

/-- With fixed width, `fuel` expansions add `fuel · max(1, step)` to the
height only. -/
theorem finalBounds_width (config : SolverConfig)
    (hm : config.fixedDimensionMode = .width) :
    ∀ fuel k b, finalBounds config k fuel b =
      ⟨b.width, b.height + fuel * max 1 config.expansionStep⟩ := by
  intro fuel
  induction fuel with
  | zero => intro k b; cases b; simp [finalBounds]
  | succ n ih =>
    intro k b
    simp only [finalBounds, expandBounds, hm]
    rw [ih]
    cases b
    simp [Bounds.mk.injEq]
    ring

/-! ## C4 — terminal bounds after iteration exhaustion -/

/-- C4 amended: when every attempt is unsat, the terminal solution has
status `unsat` but its bounds are one expansion past the last-probed
rectangle: a fixed-width run from `(w0, h0)` ends with
`(w0, h0 + maxIterations · max(1, step))`, not with the final attempt's
rectangle. -/
theorem c4_exhaustion_bounds (graph : ProductionGraph) (config : SolverConfig)
    (oracle : Oracle) (cancel : Nat → Bool) (w0 h0 : Int)
    (hw : config.initialWidth = some w0) (hh : config.initialHeight = some h0)
    (hm : config.fixedDimensionMode = .width)
    (ho : ∀ k, oracle k = .unsat) (hc : ∀ k, cancel k = false) :
    (solveWithIterativeBounds graph config oracle cancel).status = .unsat ∧
    (solveWithIterativeBounds graph config oracle cancel).bounds =
      ⟨w0, h0 + config.maxIterations * max 1 config.expansionStep⟩ := by
  unfold solveWithIterativeBounds
  rw [solveIter_allUnsat graph config oracle cancel ho hc]
  refine ⟨rfl, ?_⟩
  simp [createUnsatSolution, finalBounds_width config hm, resolveInitialBounds,
    estimateInitialBounds, hw, hh]

/-- Witness for `c4_exhaustion_bounds` on the fixed-width run. -/
theorem c4_exhaustion_bounds_witness :
    cfgFixedW.initialWidth = some 3 ∧ cfgFixedW.fixedDimensionMode = .width ∧
    runFixedW.status = .unsat ∧ runFixedW.bounds = ⟨3, 4⟩ := by
  have h := c4_exhaustion_bounds graphSingle cfgFixedW (fun _ => .unsat)
    (fun _ => false) 3 3 rfl rfl rfl (fun _ => rfl) (fun _ => rfl)
  unfold runFixedW
  refine ⟨rfl, rfl, h.1, ?_⟩
  rw [h.2]
  decide

/-! ## C3 — initial bounds, amended -/

/-- C3 amended: the first attempted rectangle is the square whose side is
the bare `⌈√A⌉` (no max with the machine dimensions), each axis overridden
independently by `initialWidth`/`initialHeight`; the first recorded attempt
probes exactly that rectangle. -/
theorem c3_initial_bounds (graph : ProductionGraph) (config : SolverConfig)
    (_hn : graph.nodes ≠ []) (hIter : 1 ≤ config.maxIterations) :
    resolveInitialBounds graph config =
      ⟨config.initialWidth.getD (Int.ofNat (ceilSqrtNat (totalFootprintArea graph).toNat)),
        config.initialHeight.getD (Int.ofNat (ceilSqrtNat (totalFootprintArea graph).toNat))⟩ ∧
    (config.initialWidth = none → config.initialHeight = none →
      resolveInitialBounds graph config =
        ⟨Int.ofNat (ceilSqrtNat (totalFootprintArea graph).toNat),
          Int.ofNat (ceilSqrtNat (totalFootprintArea graph).toNat)⟩) ∧
    (solveWithIterativeBounds graph config (fun _ => .unsat)
        (fun _ => false)).attempts.head? =
      some ⟨1, (resolveInitialBounds graph config).width,
        (resolveInitialBounds graph config).height, .unsat⟩ := by
  refine ⟨rfl, ?_, ?_⟩
  · intro h1 h2
    simp [resolveInitialBounds, estimateInitialBounds, h1, h2]
  · unfold solveWithIterativeBounds
    rw [solveIter_allUnsat graph config (fun _ => .unsat) (fun _ => false)
      (fun _ => rfl) (fun _ => rfl)]
    obtain ⟨f, hf⟩ : ∃ f, config.maxIterations = f + 1 :=
      ⟨config.maxIterations - 1, by omega⟩
    rw [hf]
    simp [createUnsatSolution, unsatAttempts]

/-- Witness for `c3_initial_bounds` at the single-grinder graph. -/
theorem c3_initial_bounds_witness :
    graphGrinder.nodes ≠ [] ∧ 1 ≤ cfgAuto.maxIterations ∧
    (resolveInitialBounds graphGrinder cfgAuto =
      ⟨cfgAuto.initialWidth.getD
        (Int.ofNat (ceilSqrtNat (totalFootprintArea graphGrinder).toNat)),
        cfgAuto.initialHeight.getD
          (Int.ofNat (ceilSqrtNat (totalFootprintArea graphGrinder).toNat))⟩ ∧
    (cfgAuto.initialWidth = none → cfgAuto.initialHeight = none →
      resolveInitialBounds graphGrinder cfgAuto =
        ⟨Int.ofNat (ceilSqrtNat (totalFootprintArea graphGrinder).toNat),
          Int.ofNat (ceilSqrtNat (totalFootprintArea graphGrinder).toNat)⟩) ∧
    (solveWithIterativeBounds graphGrinder cfgAuto (fun _ => .unsat)
        (fun _ => false)).attempts.head? =
      some ⟨1, (resolveInitialBounds graphGrinder cfgAuto).width,
        (resolveInitialBounds graphGrinder cfgAuto).height, .unsat⟩) :=
  ⟨by decide, by decide,
    c3_initial_bounds graphGrinder cfgAuto (by decide) (by decide)⟩

/-! ## C8 — input validation -/

/-- C8 counterexample: solving `graphDangling` (whose edge targets the
absent node `ghost`) with `expansionStep = 0` is not rejected: the run
emits an attempt event and terminates with a normal `unsat` solution, and
the clamped step still expands the bounds. -/
theorem c8_counterexample :
    satisfiesPlacementConstraints graphDangling ⟨3, 3⟩ modelOrigin = true ∧
    runDangling.attempts = [⟨1, 3, 3, .unsat⟩] ∧
    runDangling.status = .unsat ∧
    runDangling.attempts ≠ [] := by decide

/-! ## C7 — expansion policy -/

/-- C7: for `expansionStep ≥ 1` (the spec's config domain) the next
rectangle after an unsat attempt at 1-indexed iteration `k` is exactly the
claimed one: fixed width grows height, fixed height grows width, and
`none` alternates deterministically — width on even `k`, height on odd
`k`. -/
theorem c7_expansion_policy (current : Bounds) (config : SolverConfig) (k : Nat)
    (h : 1 ≤ config.expansionStep) :
    expandBounds current config k =
      match config.fixedDimensionMode with
      | .width => ⟨current.width, current.height + config.expansionStep⟩
      | .height => ⟨current.width + config.expansionStep, current.height⟩
      | .none =>
        if k % 2 = 0 then ⟨current.width + config.expansionStep, current.height⟩
        else ⟨current.width, current.height + config.expansionStep⟩ := by
  unfold expandBounds
  rw [max_eq_right h]
  cases config.fixedDimensionMode with
  | none =>
    by_cases hk : k % 2 = 0 <;> simp [hk]
  | width => rfl
  | height => rfl

/-- Witness for `c7_expansion_policy` at a concrete rectangle, config and
iteration. -/
theorem c7_expansion_policy_witness :
    (1 : Int) ≤ (1 : Int) ∧
    expandBounds ⟨3, 4⟩ ⟨none, none, .none, 1, 50, 30000⟩ 1 = ⟨3, 5⟩ :=
  ⟨le_refl 1, by
    have h := c7_expansion_policy ⟨3, 4⟩ ⟨none, none, .none, 1, 50, 30000⟩ 1 (by decide)
    simpa using h⟩

/-! ## C9 — sat check with failed routing -/

/-- C9: when the oracle's check at iteration `k` is `sat` but conveyor
routing of the extracted placements fails, the controller records the
attempt with status `unsat` (not `unknown`, not an error), expands the
bounds, and continues with the next iteration. -/
theorem c9_sat_route_fail_unsat (graph : ProductionGraph) (config : SolverConfig)
    (oracle : Oracle) (cancel : Nat → Bool) (k fuel : Nat) (bounds : Bounds)
    (attempts : List SolverAttempt) (model : Model)
    (hc : cancel k = false) (ho : oracle k = .sat model)
    (hr : (routeConveyorsForSolution graph
      (extractSatSolution graph model attempts 0 bounds)).ok = false) :
    solveIter graph config oracle cancel k (fuel + 1) bounds attempts =
      solveIter graph config oracle cancel (k + 1) fuel
        (expandBounds bounds config k)
        (attempts ++ [⟨k, bounds.width, bounds.height, .unsat⟩]) := by
  simp only [solveIter, hc, ho, hr]
  simp [hr]

/-- Witness for `c9_sat_route_fail_unsat` on the dangling-edge instance,
whose routing always fails. -/
theorem c9_sat_route_fail_unsat_witness :
    (routeConveyorsForSolution graphDangling
      (extractSatSolution graphDangling modelOrigin [] 0 ⟨3, 3⟩)).ok = false ∧
    solveIter graphDangling cfgDangling (fun _ => .sat modelOrigin)
        (fun _ => false) 1 1 ⟨3, 3⟩ [] =
      solveIter graphDangling cfgDangling (fun _ => .sat modelOrigin)
        (fun _ => false) 2 0 (expandBounds ⟨3, 3⟩ cfgDangling 1)
        [⟨1, 3, 3, .unsat⟩] :=
  ⟨by decide,
    c9_sat_route_fail_unsat graphDangling cfgDangling _ _ 1 0 ⟨3, 3⟩ []
      modelOrigin rfl rfl (by decide)⟩

/-! ## C10 — anchor constraint of the arithmetic encoding -/

/-- C10: the arithmetic encoding pins the first node of a non-empty graph
at the origin: every model satisfying the asserted constraints maps the
first node to `(0, 0)` — so the extracted solution places it there — and
whenever every packing (in-bounds, pairwise-separated assignment) puts the
first node away from the origin, the full constraint set is unsatisfiable. -/
theorem c10_anchor_origin (graph : ProductionGraph) (bounds : Bounds) (m : Model)
    (node : MachineNode) (rest : List MachineNode)
    (hn : graph.nodes = node :: rest) :
    (satisfiesPlacementConstraints graph bounds m = true →
      m node.id = ((0 : Int), (0 : Int)) ∧
      (extractSatSolution graph m [] 0 bounds).placements.head? =
        some ⟨node.id, 0, 0, (BUILDINGS node.type).length, (BUILDINGS node.type).width⟩) ∧
    ((∀ m2 : Model, satisfiesPackingConstraints graph bounds m2 = true →
        m2 node.id ≠ ((0 : Int), (0 : Int))) →
      ∀ m3 : Model, satisfiesPlacementConstraints graph bounds m3 = false) := by
  constructor
  · intro h
    have hanchor : m node.id = ((0 : Int), (0 : Int)) := by
      simp only [satisfiesPlacementConstraints, anchorOk, hn, Bool.and_eq_true,
        beq_iff_eq] at h
      exact h.1.2
    refine ⟨hanchor, ?_⟩
    simp [extractSatSolution, hn, hanchor]
  · intro haway m3
    by_contra hne
    rw [Bool.not_eq_false] at hne
    have hpack : satisfiesPackingConstraints graph bounds m3 = true := by
      simp only [satisfiesPlacementConstraints, Bool.and_eq_true] at hne
      simp only [satisfiesPackingConstraints, Bool.and_eq_true]
      exact ⟨hne.1.1, hne.2⟩
    have hanchor3 : m3 node.id = ((0 : Int), (0 : Int)) := by
      simp only [satisfiesPlacementConstraints, anchorOk, hn, Bool.and_eq_true,
        beq_iff_eq] at hne
      exact hne.1.2
    exact haway m3 hpack hanchor3

/-- Witness for `c10_anchor_origin` at the single-crusher graph. -/
theorem c10_anchor_origin_witness :
    graphSingle.nodes = crusherNode "a" "A" :: [] ∧
    ((satisfiesPlacementConstraints graphSingle ⟨3, 3⟩ modelOrigin = true →
      modelOrigin (crusherNode "a" "A").id = ((0 : Int), (0 : Int)) ∧
      (extractSatSolution graphSingle modelOrigin [] 0 ⟨3, 3⟩).placements.head? =
        some ⟨(crusherNode "a" "A").id, 0, 0,
          (BUILDINGS (crusherNode "a" "A").type).length,
          (BUILDINGS (crusherNode "a" "A").type).width⟩) ∧
    ((∀ m2 : Model, satisfiesPackingConstraints graphSingle ⟨3, 3⟩ m2 = true →
        m2 (crusherNode "a" "A").id ≠ ((0 : Int), (0 : Int))) →
      ∀ m3 : Model, satisfiesPlacementConstraints graphSingle ⟨3, 3⟩ m3 = false)) :=
  ⟨rfl, c10_anchor_origin graphSingle ⟨3, 3⟩ modelOrigin (crusherNode "a" "A") [] rfl⟩

end EFC
